import Mathlib

/-!
# Verification of the tessera orchestration core

Shallow embedding of the scheduling, consensus, approval and state-machine
logic of the `tessera` repository, together with proofs and refutations of
the behavioural claims made by its specification.

Embedded modules:
* `src/tessera/workflow/task_queue.py`   — `TaskQueue` (dependency-aware scheduler)
* `src/tessera/workflow/agent_pool.py`   — `AgentPool.find_best_agent`
* `src/tessera/panel.py`                 — vote tally of `conduct_panel_interview`
* `src/tessera/slack_approval.py`        — `handle_approval_response`
* `src/tessera/supervisor_graph.py`      — node functions and routing of `SupervisorGraph`

Python `dict`s (insertion-ordered) are embedded as association lists,
floats whose uses here are exact as `ℚ`, and the external LLM calls
(review verdicts, tie-break adjudication) as explicit parameters.
-/

/-! ## task_queue.py -/

/-- `TaskStatus` enum of `workflow/task_queue.py`. -/
inductive QTaskStatus where
  | pending
  | ready
  | in_progress
  | completed
  | failed
  | blocked
  deriving DecidableEq, Repr

/-- `QueuedTask` dataclass of `workflow/task_queue.py` (timestamps dropped:
no embedded operation reads them). -/
structure QueuedTask where
  task_id : String
  description : String
  agent_name : Option String := none
  status : QTaskStatus := .pending
  dependencies : List String := []
  result : Option String := none
  error : Option String := none
  retries : Nat := 0
  max_retries : Nat := 3
  deriving DecidableEq, Repr

/-- Python `dict` assignment `d[k] = v`: replace the value in place if the
key exists, otherwise append (insertion order preserved). -/
def dictSet (k : String) (v : QueuedTask) : List (String × QueuedTask) → List (String × QueuedTask)
  | [] => [(k, v)]
  | (k', v') :: rest => if k' = k then (k, v) :: rest else (k', v') :: dictSet k v rest

/-- `TaskQueue`: `tasks` is the insertion-ordered dict, `execution_order`
the cached topological order. -/
structure TaskQueue where
  tasks : List (String × QueuedTask) := []
  execution_order : List String := []
  deriving Repr

/-- One `visit(task_id)` call of `TaskQueue._update_execution_order`,
with explicit `visited` / `order` accumulators.  The Python recursion
terminates because `visited` only grows; here the same recursion is driven
by a fuel argument large enough to cover every reachable id. -/
def visitTask (tasks : List (String × QueuedTask)) :
    Nat → String → List String → List String → List String × List String
  | 0, _, visited, order => (visited, order)
  | fuel + 1, task_id, visited, order =>
    if task_id ∈ visited then (visited, order)
    else
      let visited := task_id :: visited
      match tasks.lookup task_id with
      | none => (visited, order)
      | some task =>
        let (visited, order) :=
          task.dependencies.foldl
            (fun (acc : List String × List String) dep_id =>
              visitTask tasks fuel dep_id acc.1 acc.2)
            (visited, order)
        (visited, order ++ [task_id])

/-- Fuel bound for `visitTask`: one unit per id that can ever be visited. -/
def visitFuel (tasks : List (String × QueuedTask)) : Nat :=
  tasks.length + (tasks.map (fun p => p.2.dependencies.length)).sum + 1

/-- `TaskQueue._update_execution_order`: depth-first topological sort over
all task ids in dict order. -/
def updateExecutionOrder (tasks : List (String × QueuedTask)) : List String :=
  (tasks.foldl
    (fun (acc : List String × List String) p =>
      visitTask tasks (visitFuel tasks) p.1 acc.1 acc.2)
    ([], [])).2

/-- `TaskQueue.add_task`: build the `QueuedTask`, store it under its id and
recompute the execution order.  The Python method performs no validation
whatsoever and cannot fail. -/
def addTask (q : TaskQueue) (task_id description : String)
    (dependencies : List String := []) (agent_name : Option String := none) : TaskQueue :=
  let task : QueuedTask :=
    { task_id := task_id, description := description,
      dependencies := dependencies, agent_name := agent_name }
  let tasks := dictSet task_id task q.tasks
  { tasks := tasks, execution_order := updateExecutionOrder tasks }

/-- `self.tasks.get(dep_id, QueuedTask(task_id="", description="")).status`:
the status of a dependency, a fresh `PENDING` placeholder when the id is
unknown. -/
def depStatus (q : TaskQueue) (dep_id : String) : QTaskStatus :=
  ((q.tasks.lookup dep_id).getD { task_id := "", description := "" }).status

/-- `TaskQueue.get_ready_tasks`. -/
def getReadyTasks (q : TaskQueue) (exclude_in_progress : Bool := true) : List QueuedTask :=
  q.tasks.filterMap fun p =>
    if exclude_in_progress ∧ p.2.status = .in_progress then none
    else if p.2.status = .completed ∨ p.2.status = .failed ∨ p.2.status = .blocked then none
    else if p.2.dependencies.all fun dep_id => depStatus q dep_id = .completed then some p.2
    else none

/-- Update the stored task under `task_id` when present (`if task_id in
self.tasks` guard of the three `mark_*` methods). -/
def modifyTask (q : TaskQueue) (task_id : String) (f : QueuedTask → QueuedTask) : TaskQueue :=
  { q with tasks := q.tasks.map fun p => if p.1 = task_id then (p.1, f p.2) else p }

/-- `TaskQueue.mark_in_progress`. -/
def markInProgress (q : TaskQueue) (task_id agent_name : String) : TaskQueue :=
  modifyTask q task_id fun t => { t with status := .in_progress, agent_name := some agent_name }

/-- `TaskQueue.mark_complete`. -/
def markComplete (q : TaskQueue) (task_id : String) (result : Option String := none) : TaskQueue :=
  modifyTask q task_id fun t => { t with status := .completed, result := result }

/-- `TaskQueue.mark_failed`. -/
def markFailed (q : TaskQueue) (task_id : String) (error : String) : TaskQueue :=
  modifyTask q task_id fun t =>
    { t with status := .failed, error := some error, retries := t.retries + 1 }

/-- `TaskQueue.is_complete`. -/
def isComplete (q : TaskQueue) : Bool :=
  q.tasks.all fun p =>
    p.2.status = .completed ∨ p.2.status = .failed ∨ p.2.status = .blocked

/-- The status-mutating operations of `TaskQueue` (`mark_in_progress`,
`mark_complete`, `mark_failed`). -/
inductive QueueOp where
  | in_progress (task_id agent_name : String)
  | complete (task_id : String) (result : Option String)
  | failed (task_id : String) (error : String)
  deriving DecidableEq, Repr

/-- Apply one marking operation. -/
def applyOp (q : TaskQueue) : QueueOp → TaskQueue
  | .in_progress task_id agent_name => markInProgress q task_id agent_name
  | .complete task_id result => markComplete q task_id result
  | .failed task_id error => markFailed q task_id error

/-- Apply a sequence of marking operations in order. -/
def applyOps (q : TaskQueue) (ops : List QueueOp) : TaskQueue :=
  ops.foldl applyOp q

/-! ## agent_pool.py -/

/-- `AgentInstance` of `workflow/agent_pool.py`, inlining the two
`AgentDefinition` fields `find_best_agent` reads (`capabilities`,
`phase_affinity`); the `agent`/`total_cost` fields are unused here. -/
structure AgentInstance where
  name : String
  capabilities : List String
  phase_affinity : List String
  current_task : Option String := none
  tasks_completed : Nat := 0
  tasks_failed : Nat := 0
  deriving DecidableEq, Repr

/-- `AgentPool.agents`: dict values in registration (insertion) order. -/
structure AgentPool where
  agents : List AgentInstance
  deriving Repr

/-- `AgentPool.get_available_agents`. -/
def getAvailableAgents (pool : AgentPool) : List AgentInstance :=
  pool.agents.filter fun a => a.current_task = none

/-- `len(set(capabilities_needed) & set(agent.config.capabilities))`:
number of distinct shared capability tags. -/
def capabilityOverlap (capabilities_needed agent_caps : List String) : Nat :=
  (capabilities_needed.dedup.filter fun c => c ∈ agent_caps).length

/-- The score `find_best_agent` computes for one available agent:
`10×overlap + 5×(phase in affinity) + 3×success_rate`. -/
def agentScore (capabilities_needed : List String) (phase : Option String)
    (a : AgentInstance) : ℚ :=
  (10 * capabilityOverlap capabilities_needed a.capabilities : ℚ)
    + (match phase with
       | some ph => if ph ∈ a.phase_affinity then (5 : ℚ) else 0
       | none => 0)
    + (if a.tasks_completed + a.tasks_failed > 0 then
        3 * ((a.tasks_completed : ℚ) / ((a.tasks_completed : ℚ) + (a.tasks_failed : ℚ)))
      else 0)

/-- The `scored_agents` list: `(score, name)` per available agent, kept only
when the score is strictly positive, in availability-iteration order. -/
def scoredAgents (pool : AgentPool) (capabilities_needed : List String)
    (phase : Option String) : List (ℚ × String) :=
  (getAvailableAgents pool).filterMap fun a =>
    let score := agentScore capabilities_needed phase a
    if score > 0 then some (score, a.name) else none

/-- Python's `(score, name) >= (score', name')` tuple comparison:
lexicographic, scores first, then names (code-point order). -/
def pairGe (x y : ℚ × String) : Prop :=
  y.1 < x.1 ∨ (x.1 = y.1 ∧ (y.2 < x.2 ∨ x.2 = y.2))

instance : DecidablePred fun p : (ℚ × String) × (ℚ × String) => pairGe p.1 p.2 := by
  intro p; unfold pairGe; infer_instance

instance pairGe.decidableRel : DecidableRel pairGe := by
  intro x y; unfold pairGe; infer_instance

instance pairGe.isTotal : IsTotal (ℚ × String) pairGe := by
  constructor
  intro x y
  rcases lt_trichotomy x.1 y.1 with h | h | h
  · exact Or.inr (Or.inl h)
  · rcases lt_trichotomy x.2 y.2 with h2 | h2 | h2
    · exact Or.inr (Or.inr ⟨h.symm, Or.inl h2⟩)
    · exact Or.inl (Or.inr ⟨h, Or.inr h2⟩)
    · exact Or.inl (Or.inr ⟨h, Or.inl h2⟩)
  · exact Or.inl (Or.inl h)

instance pairGe.isTrans : IsTrans (ℚ × String) pairGe := by
  constructor
  rintro x y z (h1 | ⟨e1, s1⟩) (h2 | ⟨e2, s2⟩)
  · exact Or.inl (h2.trans h1)
  · exact Or.inl (e2 ▸ h1)
  · exact Or.inl (e1 ▸ h2)
  · refine Or.inr ⟨e1.trans e2, ?_⟩
    rcases s1 with s1 | s1
    · rcases s2 with s2 | s2
      · exact Or.inl (s2.trans s1)
      · exact Or.inl (s2 ▸ s1)
    · rcases s2 with s2 | s2
      · exact Or.inl (s1 ▸ s2)
      · exact Or.inr (s1.trans s2)

/-- `scored_agents.sort(reverse=True)`: stable descending sort under the
tuple order (CPython's sort is stable; with distinct agent names the order
is total, so the result is the unique stable descending arrangement). -/
def sortScoredDesc (l : List (ℚ × String)) : List (ℚ × String) :=
  l.insertionSort pairGe

/-- `AgentPool.find_best_agent`: highest `(score, name)` pair among the
positive scorers, else the first available agent, else `None`. -/
def findBestAgent (pool : AgentPool) (capabilities_needed : List String)
    (phase : Option String := none) : Option String :=
  let scored := scoredAgents pool capabilities_needed phase
  match sortScoredDesc scored with
  | best :: _ => some best.2
  | [] =>
    match getAvailableAgents pool with
    | a :: _ => some a.name
    | [] => none

/-! ## panel.py -/

/-- `Vote` enum of `models.py`. -/
inductive PanelVote where
  | hire
  | pass
  deriving DecidableEq, Repr

/-- `Ballot` of `models.py`, restricted to the fields the tally of
`conduct_panel_interview` reads (`candidate`, `vote`, `overall_score`;
`panelist`, per-metric scores and rationale are carried along unread). -/
structure PanelBallot where
  candidate : String
  panelist : String
  vote : PanelVote
  overall_score : ℚ
  deriving DecidableEq, Repr

/-- `vote_counts[candidate]["HIRE"]`: ballots for this candidate whose vote
is `HIRE` (every panelist scores every answer, so a candidate receives one
ballot per (asked question, scoring panelist) pair). -/
def hireVotes (ballots : List PanelBallot) (candidate : String) : Nat :=
  (ballots.filter fun b => b.candidate = candidate ∧ b.vote = .hire).length

/-- `candidate_scores[candidate]`: mean `overall_score` over the
candidate's ballots, `0.0` when it has none. -/
def candidateScore (ballots : List PanelBallot) (candidate : String) : ℚ :=
  let candidate_ballots := ballots.filter fun b => b.candidate = candidate
  if candidate_ballots.length > 0 then
    (candidate_ballots.map (·.overall_score)).sum / (candidate_ballots.length : ℚ)
  else 0

/-- Descending comparison on `(candidate, score)` pairs by score only,
mirroring `sorted(..., key=lambda x: x[1], reverse=True)`. -/
def scoreGe (x y : String × ℚ) : Prop := y.2 ≤ x.2

instance scoreGe.decidableRel : DecidableRel scoreGe := by
  intro x y; unfold scoreGe; infer_instance

instance scoreGe.isTotal : IsTotal (String × ℚ) scoreGe :=
  ⟨fun x y => (le_total y.2 x.2).imp id id⟩

instance scoreGe.isTrans : IsTrans (String × ℚ) scoreGe :=
  ⟨fun _ _ _ h1 h2 => le_trans h2 h1⟩

/-- `final_ranking`: the `(candidate, mean score)` pairs in candidate-list
order, stable-sorted descending by score (CPython's `sorted` is stable and
compares only the `key`, exactly the behaviour of `insertionSort` under
`scoreGe`). -/
def finalRanking (candidates : List String) (ballots : List PanelBallot) :
    List (String × ℚ) :=
  List.insertionSort scoreGe (candidates.map fun c => (c, candidateScore ballots c))

/-- Result fields of `conduct_panel_interview` that the decision logic
produces. -/
structure PanelOutcome where
  decision : Option String
  confidence : String
  tie_breaker_used : Bool
  final_ranking : List (String × ℚ)
  deriving Repr

/-- The decision phase of `conduct_panel_interview` (panel.py lines
392-455): tally `HIRE` ballots per candidate, pick the first candidate in
list order with `hire_votes > total_votes / 2` (`total_votes` is the
number of panelists), set confidence `"high"` when
`hire_votes >= total_votes * 0.8`; otherwise, with more than one
candidate, run the tie-breaker once on the two leading candidates of the
ranking and force confidence `"low"`.

The float comparisons are exact over the integers involved:
`h > t / 2  ↔  t < 2 h`, and `h >= t * 0.8  ↔  4 t ≤ 5 h` (the rounding
error of `t * 0.8` is below a quarter ulp, never enough to cross an
integer).  The external adjudicator `InterviewerAgent.break_tie` is
abstracted as `tieBreakSelect`, returning the candidate its evaluation
picks from the tied leaders. -/
def conductPanelTally (num_panelists : Nat) (candidates : List String)
    (ballots : List PanelBallot) (tieBreakSelect : List String → String) : PanelOutcome :=
  let ranking := finalRanking candidates ballots
  match candidates.find? fun c => num_panelists < 2 * hireVotes ballots c with
  | some c =>
      { decision := some c
        confidence :=
          if 4 * num_panelists ≤ 5 * hireVotes ballots c then "high" else "medium"
        tie_breaker_used := false
        final_ranking := ranking }
  | none =>
      if candidates.length > 1 then
        { decision := some (tieBreakSelect ((ranking.take 2).map Prod.fst))
          confidence := "low"
          tie_breaker_used := true
          final_ranking := ranking }
      else
        { decision := none
          confidence := "medium"
          tie_breaker_used := false
          final_ranking := ranking }

/-! ## slack_approval.py -/

/-- One entry of `SlackApprovalCoordinator.pending_interrupts`
(`message_ts -> {thread_id, interrupt_data, channel}`); the opaque
`interrupt_data` payload is not read by `handle_approval_response`. -/
structure InterruptInfo where
  thread_id : String
  channel : String
  deriving DecidableEq, Repr

/-- `SlackApprovalCoordinator`: the pending-suspension dict, keyed by the
Slack message timestamp that serves as the suspension handle. -/
structure Coordinator where
  pending_interrupts : List (String × InterruptInfo)
  deriving DecidableEq, Repr

/-- The externally visible effect of `handle_approval_response`: the
`graph.invoke(Command(resume=approved), thread_config)` call it issues. -/
structure ResumeCall where
  thread_id : String
  approved : Bool
  deriving DecidableEq, Repr

/-- `SlackApprovalCoordinator.handle_approval_response`: if the handle is
unknown return `None` and change nothing; otherwise `pop` the pending
entry and resume the graph with `approved = (action_value == "approve")`. -/
def handleApprovalResponse (co : Coordinator) (action_value message_ts : String) :
    Option ResumeCall × Coordinator :=
  match co.pending_interrupts.lookup message_ts with
  | none => (none, co)
  | some info =>
      (some { thread_id := info.thread_id, approved := action_value == "approve" },
       { pending_interrupts := co.pending_interrupts.eraseP fun p => p.1 == message_ts })

/-! ## supervisor_graph.py -/

/-- `TaskStatus` enum of `models.py` (the status values of serialized
subtask dicts inside `SupervisorState`). -/
inductive MTaskStatus where
  | pending
  | in_progress
  | completed
  | blocked
  | failed
  deriving DecidableEq, Repr

/-- One serialized subtask dict of `SupervisorState["task"]["subtasks"]`
(`SubTask.model_dump()` of `models.py`), restricted to the keys the node
functions access (`due_by` dropped: never read). -/
structure GSubTask where
  task_id : String
  description : String
  assigned_to : Option String := none
  status : MTaskStatus := .pending
  acceptance_criteria : List String := []
  dependencies : List String := []
  result : Option String := none
  deriving DecidableEq, Repr

/-- The `next_action` routing marker of `SupervisorState`
(`"end"` is spelled `«end»`: `end` is reserved in Lean). -/
inductive NextAction where
  | assign
  | execute
  | review
  | synthesize
  | «end»
  deriving DecidableEq, Repr

/-- `SupervisorState` of `supervisor_graph.py` (the checkpointed state
dict), restricted to the fields the node functions and routers read: the
task's subtask list, the in-flight subtask, the response content, the
review verdict, the completed list, the final output and the routing
marker. -/
structure SupervisorState where
  task : Option (List GSubTask) := none
  current_subtask : Option GSubTask := none
  agent_name : Option String := none
  agent_response : Option String := none
  completed_subtasks : List GSubTask := []
  review_approved : Option Bool := none
  final_output : Option String := none
  next_action : NextAction := .assign
  deriving DecidableEq, Repr

/-- `_decompose_node`, with the parsed external LLM decomposition supplied
as `decomposed`. -/
def decomposeNode (decomposed : List GSubTask) (s : SupervisorState) : SupervisorState :=
  { s with task := some decomposed, completed_subtasks := [], next_action := .assign }

/-- The subtask loop of `_assign_node`: find the first `PENDING` subtask
whose dependencies all appear among the completed ids and mark it
`IN_PROGRESS` / assigned in place (the Python code mutates the dict object
shared between the list and `current_subtask`). -/
def assignScan (completed : List String) :
    List GSubTask → Option (List GSubTask × GSubTask)
  | [] => none
  | st :: rest =>
    if st.status = .pending ∧ st.dependencies.all (· ∈ completed) then
      let assigned := { st with status := .in_progress, assigned_to := some "default_agent" }
      some (assigned :: rest, assigned)
    else
      (assignScan completed rest).map fun p => (st :: p.1, p.2)

/-- `_assign_node`. -/
def assignNode (s : SupervisorState) : SupervisorState :=
  match s.task with
  | none => { s with next_action := .«end» }
  | some subtasks =>
    match assignScan (s.completed_subtasks.map (·.task_id)) subtasks with
    | some (subtasks', chosen) =>
        { s with task := some subtasks'
                 current_subtask := some chosen
                 agent_name := some "default_agent"
                 next_action := .execute }
    | none => { s with next_action := .synthesize }

/-- `_execute_node`: the worker call is simulated in the source
(`result = f"Completed: {subtask['description']}"`), so this node is
deterministic. -/
def executeNode (s : SupervisorState) : SupervisorState :=
  match s.current_subtask with
  | none => { s with next_action := .«end» }
  | some subtask =>
      { s with agent_response := some ("Completed: " ++ subtask.description)
               next_action := .review }

/-- The `for st in task["subtasks"]: if st["task_id"] == ...: st.update(...); break`
loop of `_review_node`: replace the first subtask with the given id. -/
def replaceFirstById : List GSubTask → GSubTask → List GSubTask
  | [], _ => []
  | st :: rest, upd =>
    if st.task_id = upd.task_id then upd :: rest else st :: replaceFirstById rest upd

/-- `_review_node`, with the external judge's verdict
(`review.get("approved", False)`) supplied as `approved`.  On approval the
subtask is marked `COMPLETED`, stored on the completed list and written
back into the task; on rejection the state is unchanged except for
`next_action = "execute"` — the source keeps no retry counter and never
marks the subtask `FAILED`. -/
def reviewNode (approved : Bool) (s : SupervisorState) : SupervisorState :=
  match s.current_subtask, s.agent_response with
  | some subtask, some response =>
    if approved then
      let subtask' := { subtask with status := .completed, result := some response }
      { s with review_approved := some true
               current_subtask := some subtask'
               completed_subtasks := s.completed_subtasks ++ [subtask']
               task := s.task.map (replaceFirstById · subtask')
               next_action := .assign }
    else
      { s with review_approved := some false, next_action := .execute }
  | _, _ => { s with next_action := .«end» }

/-- `_synthesize_node`, with the external synthesis call supplied as
`synthesis` (a function of the completed subtasks; the goal text it also
reads is fixed per run and may be captured in the closure). -/
def synthesizeNode (synthesis : List GSubTask → String) (s : SupervisorState) : SupervisorState :=
  match s.completed_subtasks with
  | [] => { s with final_output := some "No completed subtasks to synthesize."
                   next_action := .«end» }
  | completed => { s with final_output := some (synthesis completed)
                          next_action := .«end» }

/-- The graph's nodes. -/
inductive GraphNode where
  | decompose
  | assign
  | execute
  | review
  | synthesize
  deriving DecidableEq, Repr

/-- `_route_after_decompose` (`none` is `END`). -/
def routeAfterDecompose (s : SupervisorState) : Option GraphNode :=
  match s.task with
  | some (_ :: _) => some .assign
  | _ => none

/-- `_route_after_assign`. -/
def routeAfterAssign (s : SupervisorState) : Option GraphNode :=
  match s.next_action with
  | .execute => some .execute
  | .synthesize => some .synthesize
  | _ => none

/-- `_route_after_execute`. -/
def routeAfterExecute (s : SupervisorState) : Option GraphNode :=
  match s.agent_response with
  | some _ => some .review
  | none => none

/-- `_route_after_review`. -/
def routeAfterReview (s : SupervisorState) : Option GraphNode :=
  match s.next_action with
  | .assign => some .assign
  | .execute => some .execute
  | .synthesize => some .synthesize
  | _ => none

/-- The external collaborators of one run: the parsed decomposition and
the synthesis call.  Review verdicts are consumed one by one from an
explicit list, so a run is a deterministic function of its external
responses. -/
structure Externals where
  decomposed : List GSubTask
  synthesis : List GSubTask → String

/-- One LangGraph step: run the node's function, then its outgoing
(conditional) edge.  The review node consumes the next external verdict;
if the verdict stream is exhausted no further review arrives and the run
stops. -/
def stepNode (ext : Externals) :
    GraphNode → SupervisorState → List Bool →
    SupervisorState × Option GraphNode × List Bool
  | .decompose, s, rs =>
      let s' := decomposeNode ext.decomposed s
      (s', routeAfterDecompose s', rs)
  | .assign, s, rs =>
      let s' := assignNode s
      (s', routeAfterAssign s', rs)
  | .execute, s, rs =>
      let s' := executeNode s
      (s', routeAfterExecute s', rs)
  | .review, s, verdict :: rs =>
      let s' := reviewNode verdict s
      (s', routeAfterReview s', rs)
  | .review, s, [] => (s, none, [])
  | .synthesize, s, rs =>
      let s' := synthesizeNode ext.synthesis s
      (s', none, rs)

/-- Run up to `fuel` steps from `node`, recording each node entered with
the state its node function produced (`none` = `END`). -/
def runTrace (ext : Externals) :
    Nat → Option GraphNode → SupervisorState → List Bool →
    List (GraphNode × SupervisorState)
  | 0, _, _, _ => []
  | _ + 1, none, _, _ => []
  | fuel + 1, some node, s, rs =>
      let (s', next, rs') := stepNode ext node s rs
      (node, s') :: runTrace ext fuel next s' rs'

/-- Advance the execution point `(node, state, remaining verdicts)` by
`fuel` steps. -/
def advanceRun (ext : Externals) :
    Nat → Option GraphNode × SupervisorState × List Bool →
    Option GraphNode × SupervisorState × List Bool
  | 0, c => c
  | _ + 1, (none, s, rs) => (none, s, rs)
  | fuel + 1, (some node, s, rs) =>
      let (s', next, rs') := stepNode ext node s rs
      advanceRun ext fuel (next, s', rs')

/-! ## CheckpointStore (graph_base.py / spec §4.4)

Modelled from the spec: the durable checkpoint store behind
`graph_base.get_checkpointer` is langgraph's `SqliteSaver`, whose source
is outside this repository; §4.4 and §6 of the spec fix its contract:
one row `{threadId, sequence, stateBlob, timestamp}` per write, sequences
monotonically increasing per thread, `get` returning the row with the
latest sequence (or none for a fresh thread). -/

/-- A checkpointed execution point: the state plus the next-node marker. -/
structure GraphCheckpoint where
  node : Option GraphNode
  state : SupervisorState
  deriving DecidableEq, Repr

/-- Modelled from the spec: one persisted checkpoint row (timestamp
dropped: never compared). -/
structure CheckpointRow where
  thread_id : String
  sequence : Nat
  blob : GraphCheckpoint
  deriving DecidableEq, Repr

/-- Highest sequence already present for a thread (`0` when fresh). -/
def maxSequence (store : List CheckpointRow) (thread_id : String) : Nat :=
  ((store.filter fun r => r.thread_id = thread_id).map (·.sequence)).foldl max 0

/-- Modelled from the spec: `put(threadId, state)` appends one row with a
new, strictly larger sequence. -/
def putCheckpoint (store : List CheckpointRow) (thread_id : String)
    (blob : GraphCheckpoint) : List CheckpointRow :=
  store ++ [{ thread_id := thread_id, sequence := maxSequence store thread_id + 1,
              blob := blob }]

/-- Keep whichever of two candidate rows has the larger sequence (the
incumbent wins ties). -/
def latestRow (best : Option CheckpointRow) (r : CheckpointRow) : Option CheckpointRow :=
  match best with
  | none => some r
  | some b => if b.sequence < r.sequence then some r else some b

/-- Modelled from the spec: `get(threadId)` returns the blob with the
latest sequence for the thread, `none` for a fresh thread. -/
def getCheckpoint (store : List CheckpointRow) (thread_id : String) :
    Option GraphCheckpoint :=
  ((store.filter fun r => r.thread_id = thread_id).foldl latestRow none).map (·.blob)

/-! ## Helper lemmas about the TaskQueue embedding -/

theorem lookup_dictSet_self (k : String) (v : QueuedTask) (l : List (String × QueuedTask)) :
    (dictSet k v l).lookup k = some v := by
  induction l with
  | nil => simp [dictSet]
  | cons p rest ih =>
    obtain ⟨k', v'⟩ := p
    by_cases h : k' = k
    · simp [dictSet, h]
    · have hb : (k == k') = false := beq_eq_false_iff_ne.mpr (Ne.symm h)
      simp [dictSet, h, List.lookup_cons, hb, ih]

theorem lookup_dictSet_ne (k k' : String) (v : QueuedTask) (l : List (String × QueuedTask))
    (h : k' ≠ k) : (dictSet k v l).lookup k' = l.lookup k' := by
  have hb : (k' == k) = false := beq_eq_false_iff_ne.mpr h
  induction l with
  | nil => simp [dictSet, List.lookup_cons, hb]
  | cons p rest ih =>
    obtain ⟨k₀, v₀⟩ := p
    by_cases h0 : k₀ = k
    · subst h0
      simp [dictSet, List.lookup_cons, hb]
    · simp [dictSet, h0, List.lookup_cons, ih]

theorem mem_dictSet {p : String × QueuedTask} {k : String} {v : QueuedTask}
    {l : List (String × QueuedTask)} (hnd : (l.map Prod.fst).Nodup)
    (h : p ∈ dictSet k v l) : p = (k, v) ∨ (p ∈ l ∧ p.1 ≠ k) := by
  induction l with
  | nil => simpa [dictSet] using h
  | cons q rest ih =>
    obtain ⟨k₀, v₀⟩ := q
    simp only [List.map_cons, List.nodup_cons] at hnd
    by_cases h0 : k₀ = k
    · subst h0
      simp only [dictSet, if_pos rfl] at h
      rcases List.mem_cons.mp h with rfl | h
      · exact Or.inl rfl
      · refine Or.inr ⟨List.mem_cons_of_mem _ h, fun hk => hnd.1 ?_⟩
        exact hk ▸ List.mem_map_of_mem Prod.fst h
    · simp only [dictSet, if_neg h0] at h
      rcases List.mem_cons.mp h with rfl | h
      · exact Or.inr ⟨List.mem_cons_self _ _, h0⟩
      · rcases ih hnd.2 h with h' | h'
        · exact Or.inl h'
        · exact Or.inr ⟨List.mem_cons_of_mem _ h'.1, h'.2⟩

theorem keys_dictSet (k : String) (v : QueuedTask) (l : List (String × QueuedTask)) :
    ∀ k', k' ∈ (dictSet k v l).map Prod.fst → k' = k ∨ k' ∈ l.map Prod.fst := by
  induction l with
  | nil => simp [dictSet]
  | cons p rest ih =>
    obtain ⟨k₀, v₀⟩ := p
    intro k' hk'
    by_cases h0 : k₀ = k
    · subst h0
      simp only [dictSet, if_pos rfl, List.map_cons] at hk'
      rcases List.mem_cons.mp hk' with rfl | hk'
      · exact Or.inl rfl
      · rw [List.map_cons]
        exact Or.inr (List.mem_cons_of_mem _ hk')
    · simp only [dictSet, if_neg h0, List.map_cons] at hk'
      rcases List.mem_cons.mp hk' with rfl | hk'
      · rw [List.map_cons]
        exact Or.inr (List.mem_cons_self _ _)
      · rcases ih k' hk' with h | h
        · exact Or.inl h
        · rw [List.map_cons]
          exact Or.inr (List.mem_cons_of_mem _ h)

/-- Unpack membership in `get_ready_tasks`: a returned task is stored in
the queue, has none of the excluded statuses, and all its dependencies
(looked up with the `PENDING` default) are `COMPLETED`. -/
theorem mem_getReadyTasks {q : TaskQueue} {b : Bool} {t : QueuedTask}
    (h : t ∈ getReadyTasks q b) :
    (∃ k, (k, t) ∈ q.tasks) ∧
    (b = true → t.status ≠ .in_progress) ∧
    t.status ≠ .completed ∧ t.status ≠ .failed ∧ t.status ≠ .blocked ∧
    ∀ d ∈ t.dependencies, depStatus q d = .completed := by
  unfold getReadyTasks at h
  rw [List.mem_filterMap] at h
  obtain ⟨p, hp, hf⟩ := h
  by_cases h1 : b = true ∧ p.2.status = .in_progress
  · rw [if_pos h1] at hf
    exact absurd hf (by simp)
  · rw [if_neg h1] at hf
    by_cases h2 : p.2.status = .completed ∨ p.2.status = .failed ∨ p.2.status = .blocked
    · rw [if_pos h2] at hf
      exact absurd hf (by simp)
    · rw [if_neg h2] at hf
      by_cases h3 :
          (p.2.dependencies.all fun dep_id => decide (depStatus q dep_id = .completed)) = true
      · rw [if_pos h3] at hf
        obtain rfl : p.2 = t := Option.some.inj hf
        refine ⟨⟨p.1, hp⟩, fun hb => ?_, ?_, ?_, ?_, ?_⟩
        · exact fun hs => h1 ⟨hb, hs⟩
        · exact fun hs => h2 (Or.inl hs)
        · exact fun hs => h2 (Or.inr (Or.inl hs))
        · exact fun hs => h2 (Or.inr (Or.inr hs))
        · intro d hd
          have := List.all_eq_true.mp h3 d hd
          simpa using this
      · rw [if_neg h3] at hf
        exact absurd hf (by simp)

/-- A dependency whose (defaulted) status is `COMPLETED` must be stored in
the queue: the missing-id placeholder is `PENDING`. -/
theorem mem_keys_of_depStatus_completed {q : TaskQueue} {d : String}
    (h : depStatus q d = .completed) : d ∈ q.tasks.map Prod.fst := by
  unfold depStatus at h
  cases hl : q.tasks.lookup d with
  | none => rw [hl] at h; simp at h
  | some v =>
    have := List.lookup_eq_some_iff.mp hl
    obtain ⟨l₁, l₂, hsplit, _⟩ := this
    rw [hsplit]
    simp

/-! ## Claim C3 — add with cycle / unknown dependency -/

/-- Claim C3, counterexample: `add_task` performs no validation at all.
Adding a task whose dependency list references the unknown id
`"missing"` succeeds and mutates the task map, and adding the edge that
closes the two-task cycle `a ↔ b` succeeds as well, leaving both tasks
stored; no `GraphError` exists anywhere in the code. -/
theorem C3_counterexample :
    (addTask { } "a" "build" ["missing"]).tasks.lookup "a"
      = some { task_id := "a", description := "build", dependencies := ["missing"] } ∧
    (addTask { } "a" "build" ["missing"]).tasks ≠ ({ } : TaskQueue).tasks ∧
    (addTask (addTask { } "a" "first" ["b"]) "b" "second" ["a"]).tasks.lookup "b"
      = some { task_id := "b", description := "second", dependencies := ["a"] } ∧
    (addTask (addTask { } "a" "first" ["b"]) "b" "second" ["a"]).tasks.lookup "a"
      = some { task_id := "a", description := "first", dependencies := ["b"] } := by
  decide

/-- Claim C3, amended: `add_task` never fails — for every graph state and
every dependency list (unknown ids and cycle-closing edges included) it
stores the new task under its id, replacing any previous entry with that
id and leaving every other entry of the task map unchanged. -/
theorem C3_amended_addTask_total (q : TaskQueue) (task_id description : String)
    (dependencies : List String) (agent_name : Option String) :
    (addTask q task_id description dependencies agent_name).tasks.lookup task_id
      = some { task_id := task_id, description := description,
               dependencies := dependencies, agent_name := agent_name } ∧
    ∀ k, k ≠ task_id →
      (addTask q task_id description dependencies agent_name).tasks.lookup k
        = q.tasks.lookup k := by
  refine ⟨?_, fun k hk => ?_⟩
  · simpa [addTask] using lookup_dictSet_self task_id _ q.tasks
  · simpa [addTask] using lookup_dictSet_ne task_id k _ q.tasks hk

/-- Witness for `C3_amended_addTask_total` at a concrete graph. -/
theorem C3_amended_addTask_total_witness :
    (addTask { } "a" "build" ["missing"] none).tasks.lookup "a"
      = some { task_id := "a", description := "build",
               dependencies := ["missing"], agent_name := none } ∧
    (addTask { } "a" "build" ["missing"] none).tasks.lookup "zzz"
      = ({ } : TaskQueue).tasks.lookup "zzz" :=
  ⟨(C3_amended_addTask_total { } "a" "build" ["missing"] none).1,
   (C3_amended_addTask_total { } "a" "build" ["missing"] none).2 "zzz" (by decide)⟩

/-! ## Claim C7 — readiness never premature -/

/-- Claim C7: a task returned by `get_ready_tasks` (the spec's `ready()`,
with the default `exclude_in_progress = True`) has every dependency's
status `COMPLETED` (unknown ids default to `PENDING`, hence are never
`COMPLETED`), and is itself neither `IN_PROGRESS`, `COMPLETED`, `FAILED`
nor `BLOCKED`; consequently a task one of whose dependencies is not
`COMPLETED` — such as `B` in a chain `A → B` while `A` is not yet
`COMPLETED` — is never returned.  This holds for every queue state; the
claim's acyclicity assumption is not needed. -/
theorem C7_ready_never_premature (q : TaskQueue) :
    (∀ t ∈ getReadyTasks q true,
        (∀ d ∈ t.dependencies, depStatus q d = .completed) ∧
        t.status ≠ .in_progress ∧ t.status ≠ .completed ∧
        t.status ≠ .failed ∧ t.status ≠ .blocked) ∧
    (∀ t : QueuedTask, ∀ d ∈ t.dependencies, depStatus q d ≠ .completed →
        t ∉ getReadyTasks q true) := by
  constructor
  · intro t ht
    obtain ⟨_, hip, hc, hfl, hb, hdeps⟩ := mem_getReadyTasks ht
    exact ⟨hdeps, hip rfl, hc, hfl, hb⟩
  · intro t d hd hds ht
    exact hds ((mem_getReadyTasks ht).2.2.2.2.2 d hd)

/-- Witness for `C7_ready_never_premature`: in the chain `A → B` with `A`
still `PENDING`, `B` is not among the ready tasks. -/
theorem C7_ready_never_premature_witness :
    ({ task_id := "B", description := "second", dependencies := ["A"] } : QueuedTask)
      ∉ getReadyTasks (addTask (addTask { } "A" "first") "B" "second" ["A"]) true :=
  (C7_ready_never_premature (addTask (addTask { } "A" "first") "B" "second" ["A"])).2
    _ "A" (by decide) (by decide)

/-! ## Claim C10 — unknown dependency blocks forever -/

theorem keys_modifyTask (q : TaskQueue) (i : String) (f : QueuedTask → QueuedTask) :
    (modifyTask q i f).tasks.map Prod.fst = q.tasks.map Prod.fst := by
  simp only [modifyTask, List.map_map]
  apply List.map_congr_left
  intro p _
  by_cases h : p.1 = i <;> simp [h]

theorem keys_applyOp (q : TaskQueue) (op : QueueOp) :
    (applyOp q op).tasks.map Prod.fst = q.tasks.map Prod.fst := by
  cases op <;>
    simp [applyOp, markInProgress, markComplete, markFailed, keys_modifyTask]

theorem keys_applyOps (ops : List QueueOp) :
    ∀ q : TaskQueue, (applyOps q ops).tasks.map Prod.fst = q.tasks.map Prod.fst := by
  induction ops with
  | nil => intro q; rfl
  | cons op rest ih =>
    intro q
    calc (applyOps q (op :: rest)).tasks.map Prod.fst
        = (applyOps (applyOp q op) rest).tasks.map Prod.fst := rfl
      _ = (applyOp q op).tasks.map Prod.fst := ih _
      _ = q.tasks.map Prod.fst := keys_applyOp q op

theorem mem_modifyTask {q : TaskQueue} {i : String} {f : QueuedTask → QueuedTask}
    {p : String × QueuedTask} (h : p ∈ (modifyTask q i f).tasks) :
    ∃ p₀ ∈ q.tasks, p.1 = p₀.1 ∧ (p.2 = p₀.2 ∨ p.2 = f p₀.2) := by
  simp only [modifyTask, List.mem_map] at h
  obtain ⟨p₀, hp₀, hEq⟩ := h
  by_cases hc : p₀.1 = i
  · rw [if_pos hc] at hEq
    exact ⟨p₀, hp₀, by rw [← hEq], Or.inr (by rw [← hEq])⟩
  · rw [if_neg hc] at hEq
    exact ⟨p₀, hp₀, by rw [← hEq], Or.inl (by rw [← hEq])⟩

/-- The three marking operations touch only `status`, `agent_name`,
`result`, `error` and `retries`: ids and dependency lists survive. -/
theorem applyOp_preserves_entry {q : TaskQueue} {op : QueueOp} {p : String × QueuedTask}
    (h : p ∈ (applyOp q op).tasks) :
    ∃ v₀, (p.1, v₀) ∈ q.tasks ∧ v₀.task_id = p.2.task_id ∧
      v₀.dependencies = p.2.dependencies := by
  cases op with
  | in_progress i a =>
    obtain ⟨p₀, hp₀, h1, h2⟩ := mem_modifyTask (q := q) (by simpa [applyOp, markInProgress] using h)
    refine ⟨p₀.2, by rwa [h1, Prod.mk.eta], ?_, ?_⟩ <;>
      rcases h2 with h2 | h2 <;> simp [h2]
  | complete i r =>
    obtain ⟨p₀, hp₀, h1, h2⟩ := mem_modifyTask (q := q) (by simpa [applyOp, markComplete] using h)
    refine ⟨p₀.2, by rwa [h1, Prod.mk.eta], ?_, ?_⟩ <;>
      rcases h2 with h2 | h2 <;> simp [h2]
  | failed i e =>
    obtain ⟨p₀, hp₀, h1, h2⟩ := mem_modifyTask (q := q) (by simpa [applyOp, markFailed] using h)
    refine ⟨p₀.2, by rwa [h1, Prod.mk.eta], ?_, ?_⟩ <;>
      rcases h2 with h2 | h2 <;> simp [h2]

theorem applyOps_preserves_entry {ops : List QueueOp} :
    ∀ {q : TaskQueue} {p : String × QueuedTask}, p ∈ (applyOps q ops).tasks →
    ∃ v₀, (p.1, v₀) ∈ q.tasks ∧ v₀.task_id = p.2.task_id ∧
      v₀.dependencies = p.2.dependencies := by
  induction ops with
  | nil =>
    intro q p h
    exact ⟨p.2, by simpa [applyOps, Prod.mk.eta] using h, rfl, rfl⟩
  | cons op rest ih =>
    intro q p h
    have h' : p ∈ (applyOps (applyOp q op) rest).tasks := by simpa [applyOps] using h
    obtain ⟨v₁, hv₁, ht₁, hd₁⟩ := ih h'
    obtain ⟨v₀, hv₀, ht₀, hd₀⟩ := applyOp_preserves_entry hv₁
    exact ⟨v₀, hv₀, ht₀.trans ht₁, hd₀.trans hd₁⟩

/-- Claim C10: adding a task whose dependency list contains an id `d`
present nowhere in the queue succeeds without error, and under every
subsequent sequence of `mark_in_progress` / `mark_complete` /
`mark_failed` operations the task is never returned by
`get_ready_tasks`: the unknown dependency defaults to a `PENDING`
placeholder, permanently and silently blocking the task.  The
well-formedness hypotheses (stored ids match their keys, keys distinct)
are the invariants every queue built through `add_task` satisfies. -/
theorem C10_unknown_dependency_blocks (q₀ : TaskQueue) (task_id description : String)
    (dependencies : List String) (agent_name : Option String) (d : String)
    (ops : List QueueOp)
    (hwf : ∀ p ∈ q₀.tasks, p.2.task_id = p.1)
    (hnd : (q₀.tasks.map Prod.fst).Nodup)
    (hd : d ∈ dependencies)
    (hdnew : d ∉ q₀.tasks.map Prod.fst)
    (hdid : d ≠ task_id) :
    (addTask q₀ task_id description dependencies agent_name).tasks.lookup task_id
      = some { task_id := task_id, description := description,
               dependencies := dependencies, agent_name := agent_name } ∧
    ∀ t ∈ getReadyTasks
        (applyOps (addTask q₀ task_id description dependencies agent_name) ops) true,
      t.task_id ≠ task_id := by
  constructor
  · simpa [addTask] using lookup_dictSet_self task_id _ q₀.tasks
  · intro t ht htid
    obtain ⟨⟨k, hk⟩, _, _, _, _, hdeps⟩ := mem_getReadyTasks ht
    obtain ⟨v₀, hv₀, htid₀, hdep₀⟩ := applyOps_preserves_entry hk
    have hv₀' : (k, v₀) ∈ dictSet task_id
        { task_id := task_id, description := description,
          dependencies := dependencies, agent_name := agent_name } q₀.tasks := by
      simpa [addTask] using hv₀
    rcases mem_dictSet hnd hv₀' with hcase | ⟨hmem, hne⟩
    · -- the entry is the freshly added task: its dependency `d` would have
      -- to be COMPLETED, but `d` is stored nowhere
      have hv₀eq : v₀ =
          ({ task_id := task_id, description := description,
             dependencies := dependencies, agent_name := agent_name } : QueuedTask) :=
        congrArg Prod.snd hcase
      have hdt : d ∈ t.dependencies := by
        rw [← hdep₀, hv₀eq]
        exact hd
      have hcompleted := hdeps d hdt
      have hdmem := mem_keys_of_depStatus_completed hcompleted
      rw [keys_applyOps] at hdmem
      have : d ∈ (dictSet task_id
          { task_id := task_id, description := description,
            dependencies := dependencies, agent_name := agent_name } q₀.tasks).map Prod.fst := by
        simpa [addTask] using hdmem
      rcases keys_dictSet _ _ _ d this with h | h
      · exact hdid h
      · exact hdnew h
    · -- the entry predates the add: its stored id is its key, not `task_id`
      have : v₀.task_id = k := hwf _ hmem
      rw [htid₀, htid] at this
      exact hne this.symm

/-- Witness for `C10_unknown_dependency_blocks` at a concrete queue. -/
theorem C10_unknown_dependency_blocks_witness :
    (addTask (addTask { } "x" "setup") "a" "build" ["missing"] none).tasks.lookup "a"
      = some { task_id := "a", description := "build",
               dependencies := ["missing"], agent_name := none } ∧
    ∀ t ∈ getReadyTasks
        (applyOps (addTask (addTask { } "x" "setup") "a" "build" ["missing"] none)
          [QueueOp.complete "x" none]) true,
      t.task_id ≠ "a" :=
  C10_unknown_dependency_blocks (addTask { } "x" "setup") "a" "build" ["missing"] none
    "missing" [QueueOp.complete "x" none]
    (by decide) (by decide) (by decide) (by decide) (by decide)

/-! ## Claim C6 — resume on unknown / consumed handles -/

/-- After `pop`ping the entry for `ts` from a dict with distinct keys, a
lookup of `ts` finds nothing. -/
theorem lookup_eraseP_none {l : List (String × InterruptInfo)} {ts : String}
    (hnd : (l.map Prod.fst).Nodup) :
    (l.eraseP fun p => p.1 == ts).lookup ts = none ∨ l.lookup ts = none := by
  induction l with
  | nil => exact Or.inl rfl
  | cons p rest ih =>
    obtain ⟨k, v⟩ := p
    simp only [List.map_cons, List.nodup_cons] at hnd
    by_cases hk : ts = k
    · subst hk
      left
      rw [List.eraseP_cons]
      simp only [beq_self_eq_true, cond_true]
      rw [List.lookup_eq_none_iff]
      intro p hp
      simp only [bne_iff_ne]
      intro hcontra
      exact hnd.1 (hcontra ▸ List.mem_map_of_mem Prod.fst hp)
    · have hb : ((k, v).1 == ts) = false := beq_eq_false_iff_ne.mpr (Ne.symm hk)
      have hb' : (ts == k) = false := beq_eq_false_iff_ne.mpr hk
      rw [List.eraseP_cons, hb]
      simp only [cond_false]
      rcases ih hnd.2 with h | h
      · left
        rw [List.lookup_cons, hb']
        exact h
      · right
        rw [List.lookup_cons, hb']
        exact h

/-- Claim C6: `handle_approval_response` with a handle that is not pending
returns `None` and leaves every pending suspension untouched; with a valid
handle it issues the resume call exactly once, and a second call with the
same handle is a state-preserving no-op returning `None`.  The key-nodup
hypothesis is the Python `dict` invariant on `pending_interrupts`. -/
theorem C6_resume_exactly_once (co : Coordinator)
    (action_value action_value2 message_ts : String) :
    (co.pending_interrupts.lookup message_ts = none →
      handleApprovalResponse co action_value message_ts = (none, co)) ∧
    (∀ info, (co.pending_interrupts.map Prod.fst).Nodup →
      co.pending_interrupts.lookup message_ts = some info →
      (handleApprovalResponse co action_value message_ts).1
        = some { thread_id := info.thread_id, approved := action_value == "approve" } ∧
      handleApprovalResponse (handleApprovalResponse co action_value message_ts).2
          action_value2 message_ts
        = (none, (handleApprovalResponse co action_value message_ts).2)) := by
  constructor
  · intro h
    simp [handleApprovalResponse, h]
  · intro info hnd h
    have herase : ((co.pending_interrupts.eraseP
        fun p => p.1 == message_ts).lookup message_ts) = none := by
      rcases @lookup_eraseP_none co.pending_interrupts message_ts hnd with h' | h'
      · exact h'
      · rw [h] at h'
        exact absurd h' (by simp)
    constructor
    · simp [handleApprovalResponse, h]
    · simp [handleApprovalResponse, h, herase]

/-- Witness for `C6_resume_exactly_once` at a concrete pending map. -/
theorem C6_resume_exactly_once_witness :
    (handleApprovalResponse ⟨[("1700.42", ⟨"task-1", "C01"⟩)]⟩ "approve" "1700.42").1
      = some { thread_id := "task-1", approved := true } ∧
    handleApprovalResponse
        (handleApprovalResponse ⟨[("1700.42", ⟨"task-1", "C01"⟩)]⟩ "approve" "1700.42").2
        "reject" "1700.42"
      = (none,
         (handleApprovalResponse ⟨[("1700.42", ⟨"task-1", "C01"⟩)]⟩ "approve" "1700.42").2) :=
  (C6_resume_exactly_once ⟨[("1700.42", ⟨"task-1", "C01"⟩)]⟩ "approve" "reject" "1700.42").2
    ⟨"task-1", "C01"⟩ (by decide) (by decide)

/-! ## Claim C5 — find_best_agent selection rule -/

/-- Claim C5, counterexample: score ties are broken by `sort(reverse=True)`
on `(score, name)` tuples, i.e. by the lexicographically greatest name —
not by registration order.  Agents `"alpha"` and `"beta"`, registered in
that order, score identically; the claim's registration-order tie-break
would pick `"alpha"`, but the code returns `"beta"`. -/
theorem C5_counterexample :
    agentScore ["x"] none { name := "alpha", capabilities := ["x"], phase_affinity := [] }
      = agentScore ["x"] none { name := "beta", capabilities := ["x"], phase_affinity := [] } ∧
    (⟨[{ name := "alpha", capabilities := ["x"], phase_affinity := [] },
       { name := "beta", capabilities := ["x"], phase_affinity := [] }]⟩ : AgentPool).agents.map
        AgentInstance.name = ["alpha", "beta"] ∧
    findBestAgent ⟨[{ name := "alpha", capabilities := ["x"], phase_affinity := [] },
                    { name := "beta", capabilities := ["x"], phase_affinity := [] }]⟩
      ["x"] none = some "beta" := by
  refine ⟨by simp [agentScore], by simp, ?_⟩
  simp [findBestAgent, sortScoredDesc, scoredAgents, getAvailableAgents, agentScore,
    capabilityOverlap, List.dedup, List.pwFilter, List.insertionSort, List.orderedInsert,
    pairGe, String.lt_iff_toList_lt]
  simp +decide

/-- Claim C5, amended: `find_best_agent` scores every available agent as
`10×|capability overlap| + 5×(phase in affinity) + 3×success_rate`,
keeps the strictly positive scorers and returns the one whose
`(score, name)` tuple is lexicographically greatest — highest score first,
ties broken by the greatest name in code-point order (not by registration
order); if no agent scores above zero it returns the first available
agent, and if none is available it returns `None`. -/
theorem C5_amended_selection (pool : AgentPool) (capabilities_needed : List String)
    (phase : Option String) :
    (getAvailableAgents pool = [] → findBestAgent pool capabilities_needed phase = none) ∧
    (∀ a rest, scoredAgents pool capabilities_needed phase = [] →
      getAvailableAgents pool = a :: rest →
      findBestAgent pool capabilities_needed phase = some a.name) ∧
    (scoredAgents pool capabilities_needed phase ≠ [] →
      ∃ p ∈ scoredAgents pool capabilities_needed phase,
        findBestAgent pool capabilities_needed phase = some p.2 ∧
        ∀ x ∈ scoredAgents pool capabilities_needed phase, pairGe p x) := by
  refine ⟨fun h => ?_, fun a rest h1 h2 => ?_, fun h => ?_⟩
  · have hs : scoredAgents pool capabilities_needed phase = [] := by
      simp [scoredAgents, h]
    simp [findBestAgent, hs, sortScoredDesc, List.insertionSort, h]
  · simp [findBestAgent, h1, sortScoredDesc, List.insertionSort, h2]
  · obtain ⟨b, rest', hsorted⟩ :
        ∃ b rest', sortScoredDesc (scoredAgents pool capabilities_needed phase)
          = b :: rest' := by
      cases hs : sortScoredDesc (scoredAgents pool capabilities_needed phase) with
      | nil =>
        exfalso
        apply h
        have := List.perm_insertionSort pairGe (scoredAgents pool capabilities_needed phase)
        rw [sortScoredDesc] at hs
        rw [hs] at this
        exact this.symm.eq_nil
      | cons b rest' => exact ⟨b, rest', rfl⟩
    have hperm : List.Perm (sortScoredDesc (scoredAgents pool capabilities_needed phase))
        (scoredAgents pool capabilities_needed phase) :=
      List.perm_insertionSort pairGe _
    have hb_mem : b ∈ scoredAgents pool capabilities_needed phase :=
      hperm.mem_iff.mp (hsorted ▸ List.mem_cons_self b rest')
    have hsortedlist : (b :: rest').Sorted pairGe := by
      rw [← hsorted]
      exact List.sorted_insertionSort pairGe _
    refine ⟨b, hb_mem, ?_, ?_⟩
    · simp [findBestAgent, sortScoredDesc] at hsorted ⊢
      rw [hsorted]
    · intro x hx
      have hx' : x ∈ b :: rest' := hsorted ▸ hperm.symm.subset hx
      rcases List.mem_cons.mp hx' with rfl | hx''
      · exact Or.inr ⟨rfl, Or.inr rfl⟩
      · exact (List.sorted_cons.mp hsortedlist).1 x hx''

/-- Witness for `C5_amended_selection`: a pool whose only available agent
scores zero falls back to that first available agent. -/
theorem C5_amended_selection_witness :
    findBestAgent ⟨[{ name := "solo", capabilities := [], phase_affinity := [] }]⟩
      ["x"] none = some "solo" :=
  (C5_amended_selection ⟨[{ name := "solo", capabilities := [], phase_affinity := [] }]⟩
      ["x"] none).2.1
    { name := "solo", capabilities := [], phase_affinity := [] } []
    (by simp [scoredAgents, getAvailableAgents, agentScore, capabilityOverlap])
    (by decide)

/-! ## Claim C2 — majority selection rule -/

/-- Claim C2, counterexample: the winner is not characterised by "a strict
majority of the raters' binary votes".  With 3 panelists and candidates
`["A", "B"]`, every panelist scores every one of the 3 answers of each
candidate, so each candidate holds 9 ballots; `A` collects only 2 `HIRE`
ballots out of 9 (a large majority of its votes are `PASS`), `B` collects
9 out of 9 — yet the loop compares the ballot count against the panelist
count (`hire_votes > total_votes / 2`, i.e. `2 > 1.5`) and breaks at the
first hit in candidate order, so `A` is selected and the unanimously
favoured `B` is not. -/
theorem C2_counterexample :
    let ballots :=
      List.replicate 2
          ({ candidate := "A", panelist := "p", vote := .hire, overall_score := 50 } : PanelBallot)
        ++ List.replicate 7
          ({ candidate := "A", panelist := "p", vote := .pass, overall_score := 50 } : PanelBallot)
        ++ List.replicate 9
          ({ candidate := "B", panelist := "p", vote := .hire, overall_score := 50 } : PanelBallot)
    (conductPanelTally 3 ["A", "B"] ballots fun _ => "").decision = some "A" ∧
    (conductPanelTally 3 ["A", "B"] ballots fun _ => "").tie_breaker_used = false ∧
    hireVotes ballots "A" = 2 ∧
    (ballots.filter fun b => b.candidate = "A").length = 9 ∧
    hireVotes ballots "B" = 9 ∧
    (ballots.filter fun b => b.candidate = "B").length = 9 := by
  decide

/-- Claim C2, amended: when no tie-break runs, the selected winner is
exactly the first candidate in candidate-list order whose `HIRE`-ballot
count strictly exceeds half the number of panelists (the ballot count per
candidate is panelists × questions, not one per rater); whenever some
candidate clears that threshold a winner is selected without tie-break;
the winner's confidence is `"high"` exactly when its `HIRE`-ballot count
is at least 80% of the panelist count and `"medium"` otherwise; in
particular, with 3 raters casting one unanimous accept ballot each for
the sole candidate `X`, the selection is `X` with `tie_break_used =
false` and `confidence = "high"`. -/
theorem C2_amended_majority_tally (num_panelists : Nat) (candidates : List String)
    (ballots : List PanelBallot) (tieBreakSelect : List String → String) :
    ((conductPanelTally num_panelists candidates ballots tieBreakSelect).tie_breaker_used
        = false →
      ∀ c, (conductPanelTally num_panelists candidates ballots tieBreakSelect).decision
          = some c →
        c ∈ candidates ∧ num_panelists < 2 * hireVotes ballots c ∧
        ∃ pre post, candidates = pre ++ c :: post ∧
          ∀ c' ∈ pre, ¬ num_panelists < 2 * hireVotes ballots c') ∧
    ((∃ c ∈ candidates, num_panelists < 2 * hireVotes ballots c) →
      (conductPanelTally num_panelists candidates ballots tieBreakSelect).tie_breaker_used
          = false ∧
      ((conductPanelTally num_panelists candidates ballots tieBreakSelect).decision).isSome) ∧
    (∀ c, (conductPanelTally num_panelists candidates ballots tieBreakSelect).tie_breaker_used
          = false →
      (conductPanelTally num_panelists candidates ballots tieBreakSelect).decision = some c →
        ((conductPanelTally num_panelists candidates ballots tieBreakSelect).confidence
            = "high" ↔ 4 * num_panelists ≤ 5 * hireVotes ballots c) ∧
        ((conductPanelTally num_panelists candidates ballots tieBreakSelect).confidence
            = "medium" ↔ ¬ 4 * num_panelists ≤ 5 * hireVotes ballots c)) ∧
    ((conductPanelTally 3 ["X"]
        (List.replicate 3
          ({ candidate := "X", panelist := "p", vote := .hire, overall_score := 80 } : PanelBallot))
        fun _ => "").decision = some "X" ∧
      (conductPanelTally 3 ["X"]
        (List.replicate 3
          ({ candidate := "X", panelist := "p", vote := .hire, overall_score := 80 } : PanelBallot))
        fun _ => "").tie_breaker_used = false ∧
      (conductPanelTally 3 ["X"]
        (List.replicate 3
          ({ candidate := "X", panelist := "p", vote := .hire, overall_score := 80 } : PanelBallot))
        fun _ => "").confidence = "high") := by
  cases hfind : candidates.find?
      fun c => decide (num_panelists < 2 * hireVotes ballots c) with
  | some c₀ =>
    obtain ⟨hpred, pre, post, hsplit, hpre⟩ := List.find?_eq_some.mp hfind
    refine ⟨?_, ?_, ?_, by decide⟩
    · intro _ c hc
      have hdec : (conductPanelTally num_panelists candidates ballots tieBreakSelect).decision
          = some c₀ := by
        simp [conductPanelTally, hfind]
      rw [hdec] at hc
      obtain rfl : c₀ = c := Option.some.inj hc
      refine ⟨by rw [hsplit]; simp, by simpa using hpred, pre, post, hsplit, ?_⟩
      intro c' hc'
      have := hpre c' hc'
      simpa using this
    · intro _
      constructor
      · simp [conductPanelTally, hfind]
      · simp [conductPanelTally, hfind]
    · intro c _ hc
      have hdec : (conductPanelTally num_panelists candidates ballots tieBreakSelect).decision
          = some c₀ := by
        simp [conductPanelTally, hfind]
      rw [hdec] at hc
      obtain rfl : c₀ = c := Option.some.inj hc
      constructor
      · constructor
        · intro hh
          by_contra hcon
          have : (conductPanelTally num_panelists candidates ballots tieBreakSelect).confidence
              = "medium" := by
            simp [conductPanelTally, hfind, if_neg hcon]
          rw [this] at hh
          exact absurd hh (by decide)
        · intro hge
          simp [conductPanelTally, hfind, if_pos hge]
      · constructor
        · intro hh hge
          have : (conductPanelTally num_panelists candidates ballots tieBreakSelect).confidence
              = "high" := by
            simp [conductPanelTally, hfind, if_pos hge]
          rw [this] at hh
          exact absurd hh (by decide)
        · intro hcon
          simp [conductPanelTally, hfind, if_neg hcon]
  | none =>
    have hnomaj : ∀ c ∈ candidates, ¬ num_panelists < 2 * hireVotes ballots c := by
      intro c hc
      have := List.find?_eq_none.mp hfind c hc
      simpa using this
    refine ⟨?_, ?_, ?_, by decide⟩
    · intro htie c hc
      by_cases hlen : candidates.length > 1
      · exfalso
        have : (conductPanelTally num_panelists candidates ballots tieBreakSelect).tie_breaker_used
            = true := by
          simp [conductPanelTally, hfind, if_pos hlen]
        rw [this] at htie
        exact absurd htie (by decide)
      · have : (conductPanelTally num_panelists candidates ballots tieBreakSelect).decision
            = none := by
          simp [conductPanelTally, hfind, if_neg hlen]
        rw [this] at hc
        exact absurd hc (by simp)
    · rintro ⟨c, hc, hmaj⟩
      exact absurd hmaj (hnomaj c hc)
    · intro c htie hc
      by_cases hlen : candidates.length > 1
      · exfalso
        have : (conductPanelTally num_panelists candidates ballots tieBreakSelect).tie_breaker_used
            = true := by
          simp [conductPanelTally, hfind, if_pos hlen]
        rw [this] at htie
        exact absurd htie (by decide)
      · have : (conductPanelTally num_panelists candidates ballots tieBreakSelect).decision
            = none := by
          simp [conductPanelTally, hfind, if_neg hlen]
        rw [this] at hc
        exact absurd hc (by simp)

/-- Witness for `C2_amended_majority_tally`: the unanimous three-rater
panel, via the theorem's first and second conjuncts. -/
theorem C2_amended_majority_tally_witness :
    (conductPanelTally 3 ["X"]
        (List.replicate 3
          ({ candidate := "X", panelist := "p", vote := .hire, overall_score := 80 } : PanelBallot))
        fun _ => "").tie_breaker_used = false ∧
    ((conductPanelTally 3 ["X"]
        (List.replicate 3
          ({ candidate := "X", panelist := "p", vote := .hire, overall_score := 80 } : PanelBallot))
        fun _ => "").decision).isSome :=
  (C2_amended_majority_tally 3 ["X"]
      (List.replicate 3
        ({ candidate := "X", panelist := "p", vote := .hire, overall_score := 80 } : PanelBallot))
      fun _ => "").2.1
    ⟨"X", by decide, by decide⟩

/-! ## Claim C4 — tie-break round -/

/-- Claim C4, counterexample: with a single candidate and no majority, no
tie-break runs at all (`len(candidates) > 1` gates the tie-break), the
decision stays `None` and the confidence stays `"medium"`, not `"low"`. -/
theorem C4_counterexample :
    (conductPanelTally 3 ["A"]
        (List.replicate 3
          ({ candidate := "A", panelist := "p", vote := .pass, overall_score := 50 } : PanelBallot))
        fun _ => "A").tie_breaker_used = false ∧
    (conductPanelTally 3 ["A"]
        (List.replicate 3
          ({ candidate := "A", panelist := "p", vote := .pass, overall_score := 50 } : PanelBallot))
        fun _ => "A").confidence = "medium" ∧
    (conductPanelTally 3 ["A"]
        (List.replicate 3
          ({ candidate := "A", panelist := "p", vote := .pass, overall_score := 50 } : PanelBallot))
        fun _ => "A").decision = none ∧
    hireVotes
      (List.replicate 3
        ({ candidate := "A", panelist := "p", vote := .pass, overall_score := 50 } : PanelBallot))
      "A" = 0 := by
  decide

/-- Claim C4, amended: in every panel evaluation with at least two
candidates in which no candidate achieves a strict majority (`hire_votes >
total_votes / 2` fails for all), exactly one tie-break round runs: the
abstract adjudicator is applied once, to the first two candidates of the
mean-score ranking, its pick becomes the decision, `tie_break_used` is
true and the confidence is forced to `"low"` regardless of the pick. -/
theorem C4_amended_tie_break (num_panelists : Nat) (candidates : List String)
    (ballots : List PanelBallot) (tieBreakSelect : List String → String)
    (hnomaj : ∀ c ∈ candidates, ¬ num_panelists < 2 * hireVotes ballots c)
    (hlen : 1 < candidates.length) :
    (conductPanelTally num_panelists candidates ballots tieBreakSelect).decision
      = some (tieBreakSelect (((finalRanking candidates ballots).take 2).map Prod.fst)) ∧
    (conductPanelTally num_panelists candidates ballots tieBreakSelect).tie_breaker_used
      = true ∧
    (conductPanelTally num_panelists candidates ballots tieBreakSelect).confidence
      = "low" := by
  have hfind : (candidates.find?
      fun c => decide (num_panelists < 2 * hireVotes ballots c)) = none := by
    rw [List.find?_eq_none]
    intro c hc
    simpa using hnomaj c hc
  refine ⟨?_, ?_, ?_⟩ <;> simp [conductPanelTally, hfind, if_pos hlen]

/-- Witness for `C4_amended_tie_break`: a four-rater panel split 2–2
between two candidates. -/
theorem C4_amended_tie_break_witness :
    (conductPanelTally 4 ["A", "B"]
        [{ candidate := "A", panelist := "p1", vote := .hire, overall_score := 70 },
         { candidate := "A", panelist := "p2", vote := .hire, overall_score := 70 },
         { candidate := "A", panelist := "p3", vote := .pass, overall_score := 40 },
         { candidate := "A", panelist := "p4", vote := .pass, overall_score := 40 },
         { candidate := "B", panelist := "p1", vote := .pass, overall_score := 40 },
         { candidate := "B", panelist := "p2", vote := .pass, overall_score := 40 },
         { candidate := "B", panelist := "p3", vote := .hire, overall_score := 70 },
         { candidate := "B", panelist := "p4", vote := .hire, overall_score := 70 }]
        fun _ => "A").tie_breaker_used = true ∧
    (conductPanelTally 4 ["A", "B"]
        [{ candidate := "A", panelist := "p1", vote := .hire, overall_score := 70 },
         { candidate := "A", panelist := "p2", vote := .hire, overall_score := 70 },
         { candidate := "A", panelist := "p3", vote := .pass, overall_score := 40 },
         { candidate := "A", panelist := "p4", vote := .pass, overall_score := 40 },
         { candidate := "B", panelist := "p1", vote := .pass, overall_score := 40 },
         { candidate := "B", panelist := "p2", vote := .pass, overall_score := 40 },
         { candidate := "B", panelist := "p3", vote := .hire, overall_score := 70 },
         { candidate := "B", panelist := "p4", vote := .hire, overall_score := 70 }]
        fun _ => "A").confidence = "low" :=
  ⟨(C4_amended_tie_break 4 ["A", "B"] _ (fun _ => "A") (by decide) (by decide)).2.1,
   (C4_amended_tie_break 4 ["A", "B"] _ (fun _ => "A") (by decide) (by decide)).2.2⟩

/-! ## Claim C8 — stable descending ranking -/

/-- Claim C8: the final ranking is the stable descending sort, by mean
overall score, of the `(candidate, mean score)` pairs taken in original
candidate order: it is sorted descending, it is a permutation of those
pairs, any two tied pairs keep their original relative order, and
identical ballots always produce the identical ranking. -/
theorem C8_ranking_stable_sort (candidates : List String)
    (ballots ballots' : List PanelBallot) :
    (finalRanking candidates ballots).Sorted scoreGe ∧
    List.Perm (finalRanking candidates ballots)
      (candidates.map fun c => (c, candidateScore ballots c)) ∧
    (∀ x y : String × ℚ, x.2 = y.2 →
      List.Sublist [x, y] (candidates.map fun c => (c, candidateScore ballots c)) →
      List.Sublist [x, y] (finalRanking candidates ballots)) ∧
    (ballots = ballots' → finalRanking candidates ballots = finalRanking candidates ballots') := by
  refine ⟨List.sorted_insertionSort scoreGe _, List.perm_insertionSort scoreGe _,
    fun x y hxy hsub => ?_, fun h => by rw [h]⟩
  show List.Sublist [x, y]
    (List.insertionSort scoreGe (candidates.map fun c => (c, candidateScore ballots c)))
  exact List.pair_sublist_insertionSort (r := scoreGe)
    (show scoreGe x y from le_of_eq hxy.symm) hsub

/-- Witness for `C8_ranking_stable_sort`: two candidates with no ballots
tie at mean score `0` and keep their original order in the ranking. -/
theorem C8_ranking_stable_sort_witness :
    List.Sublist [("A", (0 : ℚ)), ("B", (0 : ℚ))] (finalRanking ["A", "B"] []) :=
  (C8_ranking_stable_sort ["A", "B"] [] []).2.2.1 ("A", (0 : ℚ)) ("B", (0 : ℚ)) rfl
    (by simp [candidateScore])

/-! ## Claim C1 — review rejections are never capped -/

/-- Claim C1 (code bug): the source keeps no retry counter in the review
loop.  With one subtask and a judge that rejects three consecutive times
(`QueuedTask.max_retries` defaults to 3, and is read nowhere), the graph
enters the execute node four times — a 4th execution attempt occurs — the
rejection edge out of review is always `execute`, and no state of the run
ever carries a `FAILED` subtask. -/
theorem C1_no_retry_cap :
    ({ task_id := "t", description := "d" } : QueuedTask).max_retries = 3 ∧
    (((runTrace ⟨[{ task_id := "s1", description := "d" }], fun _ => "out"⟩ 12
        (some .decompose) { } [false, false, false]).map Prod.fst).count .execute) = 4 ∧
    ((runTrace ⟨[{ task_id := "s1", description := "d" }], fun _ => "out"⟩ 12
        (some .decompose) { } [false, false, false]).all fun p =>
      (match p.2.task with
       | some subtasks => subtasks.all fun st => st.status != .failed
       | none => true)
      && (match p.2.current_subtask with
          | some st => st.status != .failed
          | none => true)) = true := by
  decide

/-! ## Claim C9 — checkpoint round trip and deterministic replay -/

theorem foldl_max_mono (l : List Nat) : ∀ {i j : Nat}, i ≤ j → l.foldl max i ≤ l.foldl max j := by
  induction l with
  | nil => intro i j h; exact h
  | cons x rest ih => intro i j h; exact ih (max_le_max h le_rfl)

/-- Any row selected by the `latestRow` fold has a sequence bounded by the
running maximum. -/
theorem foldl_latestRow_le (rows : List CheckpointRow) :
    ∀ (acc : Option CheckpointRow) (b : CheckpointRow),
      rows.foldl latestRow acc = some b →
      b.sequence ≤ (rows.map (·.sequence)).foldl max (acc.elim 0 (·.sequence)) := by
  induction rows with
  | nil =>
    intro acc b h
    cases acc with
    | none => simp [List.foldl] at h
    | some x =>
      obtain rfl : x = b := Option.some.inj h
      simp
  | cons r rest ih =>
    intro acc b h
    have h' : rest.foldl latestRow (latestRow acc r) = some b := h
    have hstep : (latestRow acc r).elim 0 (·.sequence)
        ≤ max (acc.elim 0 (·.sequence)) r.sequence := by
      cases acc with
      | none => simp [latestRow]
      | some b' =>
        by_cases hlt : b'.sequence < r.sequence
        · simp [latestRow, if_pos hlt]
        · simp [latestRow, if_neg hlt]
    calc b.sequence
        ≤ (rest.map (·.sequence)).foldl max ((latestRow acc r).elim 0 (·.sequence)) :=
          ih _ _ h'
      _ ≤ (rest.map (·.sequence)).foldl max (max (acc.elim 0 (·.sequence)) r.sequence) :=
          foldl_max_mono _ hstep
      _ = ((r :: rest).map (·.sequence)).foldl max (acc.elim 0 (·.sequence)) := rfl

/-- The put/get round trip of the checkpoint store. -/
theorem getCheckpoint_putCheckpoint (store : List CheckpointRow) (thread_id : String)
    (blob : GraphCheckpoint) :
    getCheckpoint (putCheckpoint store thread_id blob) thread_id = some blob := by
  unfold getCheckpoint putCheckpoint
  rw [List.filter_append, List.foldl_append]
  have hfilter : List.filter (fun r => decide (r.thread_id = thread_id))
      ([{ thread_id := thread_id, sequence := maxSequence store thread_id + 1,
          blob := blob }] : List CheckpointRow)
      = [{ thread_id := thread_id, sequence := maxSequence store thread_id + 1,
           blob := blob }] := by
    simp
  rw [hfilter]
  cases hacc : (store.filter fun r => r.thread_id = thread_id).foldl latestRow none with
  | none => simp [latestRow]
  | some b =>
    have hle : b.sequence ≤ maxSequence store thread_id := by
      have := foldl_latestRow_le _ none b hacc
      simpa [maxSequence] using this
    have hlt : b.sequence
        < ({ thread_id := thread_id, sequence := maxSequence store thread_id + 1,
             blob := blob } : CheckpointRow).sequence := by
      simpa using Nat.lt_succ_of_le hle
    simp [latestRow, if_pos hlt]

theorem runTrace_none (ext : Externals) (b : Nat) (s : SupervisorState) (rs : List Bool) :
    runTrace ext b none s rs = [] := by
  cases b <;> rfl

/-- Splitting a run: the trace of `a + b` steps is the trace of the first
`a` steps followed by the trace of `b` more steps from the advanced
execution point. -/
theorem runTrace_append (ext : Externals) (a : Nat) :
    ∀ (b : Nat) (n : Option GraphNode) (s : SupervisorState) (rs : List Bool),
      runTrace ext (a + b) n s rs
        = runTrace ext a n s rs
          ++ runTrace ext b (advanceRun ext a (n, s, rs)).1
               (advanceRun ext a (n, s, rs)).2.1 (advanceRun ext a (n, s, rs)).2.2 := by
  induction a with
  | zero =>
    intro b n s rs
    rw [Nat.zero_add]
    simp [runTrace, advanceRun]
  | succ a ih =>
    intro b n s rs
    have h1 : a + 1 + b = (a + b) + 1 := by omega
    cases n with
    | none =>
      rw [h1]
      simp [runTrace_none, advanceRun]
    | some node =>
      rcases hstep : stepNode ext node s rs with ⟨s', n', rs'⟩
      have hL : runTrace ext ((a + b) + 1) (some node) s rs
          = (node, s') :: runTrace ext (a + b) n' s' rs' := by
        simp [runTrace, hstep]
      have hR : runTrace ext (a + 1) (some node) s rs
          = (node, s') :: runTrace ext a n' s' rs' := by
        simp [runTrace, hstep]
      have hAdv : advanceRun ext (a + 1) (some node, s, rs)
          = advanceRun ext a (n', s', rs') := by
        simp [advanceRun, hstep]
      rw [h1, hL, hR, hAdv, ih b n' s' rs']
      rfl

/-- Claim C9: `put(thread, state)` followed by `get(thread)` returns the
very state written (for every prior store contents), and a run resumed
from a checkpoint taken after `a` steps, fed the remaining external
review verdicts, produces exactly the transition sequence the
uninterrupted run would have produced from that point on. -/
theorem C9_checkpoint_roundtrip_replay (store : List CheckpointRow) (thread_id : String)
    (ext : Externals) (a b : Nat) (n : Option GraphNode) (s : SupervisorState)
    (rs : List Bool) :
    (∀ blob : GraphCheckpoint,
      getCheckpoint (putCheckpoint store thread_id blob) thread_id = some blob) ∧
    runTrace ext (a + b) n s rs
      = runTrace ext a n s rs
        ++ runTrace ext b (advanceRun ext a (n, s, rs)).1
             (advanceRun ext a (n, s, rs)).2.1 (advanceRun ext a (n, s, rs)).2.2 :=
  ⟨fun blob => getCheckpoint_putCheckpoint store thread_id blob,
   runTrace_append ext a b n s rs⟩
